import Mathlib

/-!
Shallow embedding of `src/sql_query_builder.py` (class `SqlAlchemyQueryBuilder`)
over the schema of `src/models.py` / `src/database.py`.

The four SQLAlchemy models (`User`, `Profile`, `Post`, `Comment`) become the
inductive `QB.Entity`; their mapped columns (including the `id` column inherited
from `Base`) and relationships become the tables `QB.entityFields` and
`QB.entityRels`.  Python's `getattr(model, name, None)` — which finds both
columns and relationships — becomes `QB.getattrOpt`.  The `Select` statement is
modelled as the record `QB.Stmt` recording, in order: the base entity, the
emitted outer joins, the loader options (`load_only` / `contains_eager`
chains), the where-clauses, the order-by keys, and limit/offset.  Each
`ValueError` message the source can raise becomes a constructor of `QB.Err`,
and fallible builder methods return `Except Err _`.
-/

namespace QB

/-- The SQLAlchemy models of `src/models.py`. -/
inductive Entity : Type
  | User
  | Profile
  | Post
  | Comment
deriving DecidableEq, Repr

/-- `__name__` of each model class. -/
def entityName : Entity → String
  | .User => "User"
  | .Profile => "Profile"
  | .Post => "Post"
  | .Comment => "Comment"

/-- Mapped column names of each model: the columns declared in `src/models.py`
plus the `id` primary key inherited from `Base` (`src/database.py`). -/
def entityFields : Entity → List String
  | .User => ["id", "username", "password", "profile_id"]
  | .Profile => ["id", "first_name", "last_name", "age"]
  | .Post => ["id", "title", "content", "user_id"]
  | .Comment => ["id", "content", "user_id", "post_id", "is_published"]

/-- Relationships of each model (`relationship(...)` declarations in
`src/models.py`), as pairs of attribute name and target model. -/
def entityRels : Entity → List (String × Entity)
  | .User => [("profile", .Profile), ("posts", .Post), ("comments", .Comment)]
  | .Profile => [("user", .User)]
  | .Post => [("user", .User), ("comments", .Comment)]
  | .Comment => [("user", .User), ("post", .Post)]

/-- An `InstrumentedAttribute`: either a mapped column of a model or a
relationship attribute (which carries its target model, the value of
`attr.property.mapper.class_`). -/
inductive Attr : Type
  | field (owner : Entity) (name : String)
  | rel (owner : Entity) (name : String) (target : Entity)
deriving DecidableEq, Repr

/-- Target model of a relationship attribute (`attr.property.mapper.class_`).
On a column attribute we return the owner; the builder only ever applies this
to relationship attributes. -/
def relTarget : Attr → Entity
  | .field e _ => e
  | .rel _ _ t => t

/-- Generic association-list lookup (first match wins), used for Python `dict`
indexing and `dict.get`. -/
def assocLookup {κ β : Type} [DecidableEq κ] : List (κ × β) → κ → Option β
  | [], _ => none
  | (k, v) :: rest, q => if k = q then some v else assocLookup rest q

/-- Python's `getattr(model_class, name, None)`: finds the column or the
relationship attribute of that name, or nothing.  (Column and relationship
names are disjoint on every model of `src/models.py`.) -/
def getattrOpt (e : Entity) (n : String) : Option Attr :=
  if n ∈ entityFields e then some (.field e n)
  else
    match assocLookup (entityRels e) n with
    | some t => some (.rel e n t)
    | none => none

/-- The distinct `ValueError` situations of `src/sql_query_builder.py`, one
constructor per distinct message, plus the two Python runtime errors the
builder can hit (`KeyError` on the selectable-fields mapping, and
`UnboundLocalError` when a path splits into no parts — unreachable through
`str.split`, which never returns an empty list). -/
inductive Err : Type
  | unknownField (model field : String)
  | unknownRelationship (model rel : String)
  | notARelationship (rel model : String)
  | mappingKeyError (model : String)
  | unboundLocal
deriving DecidableEq, Repr

/-- `SqlAlchemyQueryBuilder._get_field`: plain `getattr`; raises only when the
attribute is absent.  Note it performs no kind check, so a relationship name
resolves successfully. -/
def get_field (m : Entity) (n : String) : Except Err Attr :=
  match getattrOpt m n with
  | none => .error (.unknownField (entityName m) n)
  | some a => .ok a

/-- `SqlAlchemyQueryBuilder._get_relationship_field`: `getattr` plus the
`property._is_relationship` check. -/
def get_relationship_field (m : Entity) (n : String) : Except Err Attr :=
  match getattrOpt m n with
  | none => .error (.unknownRelationship (entityName m) n)
  | some (.field _ _) => .error (.notARelationship n (entityName m))
  | some a => .ok a

/-- `SqlAlchemyQueryBuilder._get_operators_mapping`. -/
def get_operators_mapping : List (String × String) :=
  [("eq", "__eq__"), ("le", "__le__"), ("lt", "__lt__"), ("ne", "__ne__"),
   ("between", "between"), ("icontains", "icontains"), ("in", "in_"),
   ("ilike", "ilike"), ("not_in", "not_in")]

/-- The keys of the operator table (`possible_operators` in
`_get_prepared_filters`). -/
def operatorKeys : List String := get_operators_mapping.map Prod.fst

/-- Sort direction (`Literal["asc", "desc"]`). -/
inductive Dir : Type
  | asc
  | desc
deriving DecidableEq, Repr

/-- Dataclass `PreparedSelectableField`. -/
structure PreparedSelectableField : Type where
  name_parts : List String
deriving DecidableEq, Repr

/-- Dataclass `PreparedJoinField`. -/
structure PreparedJoinField : Type where
  name_parts : List String
deriving DecidableEq, Repr

/-- Dataclass `PreparedFilterField`; the filter value type is opaque to the
builder, so it is a type parameter. -/
structure PreparedFilterField (α : Type) : Type where
  name_parts : List String
  operator : String
  value : α
deriving DecidableEq, Repr

/-- Dataclass `PreparedOrderByField`. -/
structure PreparedOrderByField : Type where
  name_parts : List String
  direction : Dir
deriving DecidableEq, Repr

/-- A value appended to the selectable-fields mapping: an attribute or the
string `"__all__"`. -/
inductive SelEntry : Type
  | attr (a : Attr)
  | all
deriving DecidableEq, Repr

/-- A cleaned mapping value: still a list of entries, or collapsed to
`"__all__"`. -/
inductive SelVal : Type
  | fields (entries : List SelEntry)
  | all
deriving DecidableEq, Repr

/-- The raw `model_selectable_fields_mapping` dict (insertion-ordered). -/
abbrev SelMapping : Type := List (Entity × List SelEntry)

/-- The cleaned mapping returned by `_get_model_selectable_fields_mapping`. -/
abbrev CleanMapping : Type := List (Entity × SelVal)

/-- A loader option attached via `stmt.options(...)`: a bare `load_only` for
the head model, or a `contains_eager` chain optionally restricted by
`load_only`. -/
inductive LoadOption : Type
  | loadOnly (fs : List SelEntry)
  | containsEagerAll (chain : List Attr)
  | containsEagerLoadOnly (chain : List Attr) (fs : List SelEntry)
deriving DecidableEq, Repr

/-- The `Select` statement, abstracted to the parts the builder manipulates.
Where-clauses record the resolved attribute, the SQLAlchemy-side operator name
(the value side of the operator table) and the filter value. -/
structure Stmt (α : Type) : Type where
  base : Entity
  joins : List Attr
  options : List LoadOption
  wheres : List (Attr × String × α)
  orderBys : List (Attr × Dir)
  limit : Option Int
  offset : Option Int
deriving DecidableEq, Repr

/-- `SqlAlchemyQueryBuilder._generate_init_stmt`: `select(model_class)`.  Every
`Entity` is a model subclassing `Base`, so the `issubclass` guard always
passes. -/
def generate_init_stmt (root : Entity) : Stmt α :=
  ⟨root, [], [], [], [], none, none⟩

/-- Helper for `splitOnDot`, structurally recursive over the characters. -/
def splitOnDotAux : List Char → List Char → List String
  | [], acc => [String.mk acc.reverse]
  | c :: rest, acc =>
    if c = '.' then String.mk acc.reverse :: splitOnDotAux rest []
    else splitOnDotAux rest (c :: acc)

/-- Python's `str.split(".")`: splits on every dot, keeping empty segments
(so `""` yields `[""]` and the result is never the empty list). -/
def splitOnDot (s : String) : List String :=
  splitOnDotAux s.data []

/-- `SqlAlchemyQueryBuilder._get_order_by_field_direction`
(`order_by_field.startswith("-")`). -/
def get_order_by_field_direction (s : String) : Dir :=
  match s.data with
  | '-' :: _ => .desc
  | _ => .asc

/-- Source method `_remove_order_by_field_direction_prefix`: strips one leading
`"-"` marker (`str.removeprefix`). -/
def strip_order_by_direction (s : String) : String :=
  match s.data with
  | '-' :: rest => String.mk rest
  | _ => s

/-- `SqlAlchemyQueryBuilder._get_prepared_selectable_fields`: split each path
on `"."`. -/
def get_prepared_selectable_fields (fields : List String) :
    List PreparedSelectableField :=
  fields.map fun s => ⟨splitOnDot s⟩

/-- Accumulating loop of `_get_prepared_join_fields`: collect, in first-seen
order, the distinct `name_parts[:-1]` of the multi-segment selectable
fields. -/
def uniqueJoinParts : List PreparedSelectableField → List (List String) →
    List (List String)
  | [], acc => acc
  | p :: rest, acc =>
    if p.name_parts.length > 1 then
      if p.name_parts.dropLast ∈ acc then uniqueJoinParts rest acc
      else uniqueJoinParts rest (acc ++ [p.name_parts.dropLast])
    else uniqueJoinParts rest acc

/-- `SqlAlchemyQueryBuilder._get_prepared_join_fields`. -/
def get_prepared_join_fields (ps : List PreparedSelectableField) :
    List PreparedJoinField :=
  (uniqueJoinParts ps []).map PreparedJoinField.mk

/-- `SqlAlchemyQueryBuilder._get_prepared_filters`: if the trailing segment is
a key of the operator table it becomes the operator and is dropped from the
path, else the operator defaults to `"eq"`. -/
def get_prepared_filters (filters : List (String × α)) :
    List (PreparedFilterField α) :=
  filters.map fun fv =>
    match (splitOnDot fv.1).getLast? with
    | some last =>
      if last ∈ operatorKeys then ⟨(splitOnDot fv.1).dropLast, last, fv.2⟩
      else ⟨splitOnDot fv.1, "eq", fv.2⟩
    | none => ⟨splitOnDot fv.1, "eq", fv.2⟩

/-- `SqlAlchemyQueryBuilder._get_prepared_order_by_fields`. -/
def get_prepared_order_by_fields (obs : List String) :
    List PreparedOrderByField :=
  obs.map fun s =>
    ⟨splitOnDot (strip_order_by_direction s), get_order_by_field_direction s⟩

/-- Loop body shared by `_get_model_selectable_fields_mapping`'s inner `for`:
walk the parts, treating a part as terminal when it EQUALS the last part (the
source compares `name_part == name_parts[-1]` by value, not by position).  A
terminal `"*"` yields `"__all__"`, another terminal goes through `_get_field`,
a non-terminal goes through `_get_relationship_field` and advances the current
model.  The `Option` threads Python's not-yet-assigned `field` variable. -/
def resolveSelLoop (last : String) : List String → Entity → Option SelEntry →
    Except Err (Entity × Option SelEntry)
  | [], m, f => .ok (m, f)
  | p :: rest, m, _f =>
    if p = last then
      if p = "*" then resolveSelLoop last rest m (some .all)
      else
        match get_field m p with
        | .error e => .error e
        | .ok a => resolveSelLoop last rest m (some (.attr a))
    else
      match get_relationship_field m p with
      | .error e => .error e
      | .ok r => resolveSelLoop last rest (relTarget r) (some (.attr r))

/-- Resolution of one prepared selectable field: the model and value that
`_get_model_selectable_fields_mapping` will append for it.  An empty part list
would leave Python's `field` variable unbound (`UnboundLocalError`); it is
unreachable because `str.split` never returns an empty list. -/
def resolveSel (root : Entity) (parts : List String) :
    Except Err (Entity × SelEntry) :=
  match parts.getLast? with
  | none => .error .unboundLocal
  | some last =>
    match resolveSelLoop last parts root none with
    | .error e => .error e
    | .ok (m, some f) => .ok (m, f)
    | .ok (_, none) => .error .unboundLocal

/-- `mapping[model].append(field)` preceded by `mapping[model] = []` when the
key is new: appends to the first entry with this key, or adds a fresh entry at
the end. -/
def appendToKey : SelMapping → Entity → SelEntry → SelMapping
  | [], k, v => [(k, [v])]
  | (k', vs) :: rest, k, v =>
    if k' = k then (k', vs ++ [v]) :: rest
    else (k', vs) :: appendToKey rest k v

/-- The outer `for` loop of `_get_model_selectable_fields_mapping`, threading
the mapping accumulator. -/
def buildSelMapping (root : Entity) : List PreparedSelectableField →
    SelMapping → Except Err SelMapping
  | [], acc => .ok acc
  | p :: rest, acc =>
    match resolveSel root p.name_parts with
    | .error e => .error e
    | .ok (m, f) => buildSelMapping root rest (appendToKey acc m f)

/-- `SqlAlchemyQueryBuilder._clean_model_selectable_fields_mapping`: any model
whose list contains `"__all__"` collapses to `"__all__"`. -/
def clean_model_selectable_fields_mapping (m : SelMapping) : CleanMapping :=
  m.map fun p => (p.1, if SelEntry.all ∈ p.2 then SelVal.all else .fields p.2)

/-- `SqlAlchemyQueryBuilder._get_model_selectable_fields_mapping`: build the
raw mapping, then clean it. -/
def get_model_selectable_fields_mapping (root : Entity)
    (ps : List PreparedSelectableField) : Except Err CleanMapping :=
  match buildSelMapping root ps [] with
  | .error e => .error e
  | .ok raw => .ok (clean_model_selectable_fields_mapping raw)

/-- `SqlAlchemyQueryBuilder._set_head_selectable_fields_to_stmt`:
`mapping.get(model_class, "__all__")` — a missing key or `"__all__"` leaves
the statement untouched, otherwise a `load_only` option is attached. -/
def set_head_selectable_fields_to_stmt (stmt : Stmt α) (root : Entity)
    (mapping : CleanMapping) : Stmt α :=
  match assocLookup mapping root with
  | none => stmt
  | some .all => stmt
  | some (.fields fs) => { stmt with options := stmt.options ++ [.loadOnly fs] }

/-- Inner `for relationship_name in ...` loop of
`_set_joins_and_nested_selectable_fields_to_stmt`: resolve each hop, advance
the model, emit an outer join only when the target model is not yet in
`already_joined_models`, and always extend the `contains_eager` chain. -/
def joinChainLoop : List String → Entity → List Entity → List Attr →
    Stmt α → Except Err (Entity × List Entity × List Attr × Stmt α)
  | [], m, aj, chain, stmt => .ok (m, aj, chain, stmt)
  | rname :: rest, m, aj, chain, stmt =>
    match get_relationship_field m rname with
    | .error e => .error e
    | .ok r =>
      if relTarget r ∈ aj then joinChainLoop rest (relTarget r) aj (chain ++ [r]) stmt
      else
        joinChainLoop rest (relTarget r) (aj ++ [relTarget r]) (chain ++ [r])
          { stmt with joins := stmt.joins ++ [r] }

/-- Outer loop of `_set_joins_and_nested_selectable_fields_to_stmt`: after each
chain, index the mapping at the reached model (Python raises `KeyError` when it
is absent) and attach the `contains_eager` option, restricted by `load_only`
unless that model collapsed to `"__all__"`. -/
def setJoinsLoop (root : Entity) (mapping : CleanMapping) :
    List PreparedJoinField → List Entity → Stmt α → Except Err (Stmt α)
  | [], _, stmt => .ok stmt
  | jf :: rest, aj, stmt =>
    match joinChainLoop jf.name_parts root aj [] stmt with
    | .error e => .error e
    | .ok (m, aj', chain, stmt') =>
      match assocLookup mapping m with
      | none => .error (.mappingKeyError (entityName m))
      | some .all =>
        setJoinsLoop root mapping rest aj'
          { stmt' with options := stmt'.options ++ [.containsEagerAll chain] }
      | some (.fields fs) =>
        setJoinsLoop root mapping rest aj'
          { stmt' with options := stmt'.options ++ [.containsEagerLoadOnly chain fs] }

/-- `SqlAlchemyQueryBuilder._set_joins_and_nested_selectable_fields_to_stmt`:
the `already_joined_models` list starts empty on every call. -/
def set_joins_and_nested_selectable_fields_to_stmt (root : Entity)
    (mapping : CleanMapping) (stmt : Stmt α) (jfs : List PreparedJoinField) :
    Except Err (Stmt α) :=
  setJoinsLoop root mapping jfs [] stmt

/-- Path-resolution loop shared by `_set_filters_to_stmt` and
`_set_order_by_to_stmt`: like `resolveSelLoop` but the terminal case has no
wildcard and always goes through `_get_field`. -/
def resolveFieldLoop (last : String) : List String → Entity → Option Attr →
    Except Err (Entity × Option Attr)
  | [], m, f => .ok (m, f)
  | p :: rest, m, _f =>
    if p = last then
      match get_field m p with
      | .error e => .error e
      | .ok a => resolveFieldLoop last rest m (some a)
    else
      match get_relationship_field m p with
      | .error e => .error e
      | .ok r => resolveFieldLoop last rest (relTarget r) (some r)

/-- Resolve a filter or order-by path to its attribute. -/
def resolveFieldPath (root : Entity) (parts : List String) : Except Err Attr :=
  match parts.getLast? with
  | none => .error .unboundLocal
  | some last =>
    match resolveFieldLoop last parts root none with
    | .error e => .error e
    | .ok (_, some a) => .ok a
    | .ok (_, none) => .error .unboundLocal

/-- `SqlAlchemyQueryBuilder._set_filters_to_stmt`: resolve each prepared
filter's path and append a where-clause.  The operator always comes from the
fixed table (`operators_mapping[...]` cannot raise here because
`_get_prepared_filters` only emits table keys or `"eq"`), and every mapped
operator name resolves on an `InstrumentedAttribute` via `ColumnOperators`, so
`_get_field_operator_function` succeeds. -/
def set_filters_to_stmt (root : Entity) : Stmt α → List (PreparedFilterField α) →
    Except Err (Stmt α)
  | stmt, [] => .ok stmt
  | stmt, pf :: rest =>
    match resolveFieldPath root pf.name_parts with
    | .error e => .error e
    | .ok a =>
      set_filters_to_stmt root
        { stmt with wheres :=
            stmt.wheres ++ [(a, (assocLookup get_operators_mapping pf.operator).getD pf.operator, pf.value)] }
        rest

/-- `SqlAlchemyQueryBuilder._set_order_by_to_stmt`. -/
def set_order_by_to_stmt (root : Entity) : Stmt α → List PreparedOrderByField →
    Except Err (Stmt α)
  | stmt, [] => .ok stmt
  | stmt, pf :: rest =>
    match resolveFieldPath root pf.name_parts with
    | .error e => .error e
    | .ok a =>
      set_order_by_to_stmt root
        { stmt with orderBys := stmt.orderBys ++ [(a, pf.direction)] } rest

/-- `SqlAlchemyQueryBuilder._add_joins_and_selectable_fields` (`if not
field_names: return stmt`). -/
def add_joins_and_selectable_fields (stmt : Stmt α) (root : Entity)
    (fields : List String) : Except Err (Stmt α) :=
  if fields.isEmpty then .ok stmt
  else
    match get_model_selectable_fields_mapping root
        (get_prepared_selectable_fields fields) with
    | .error e => .error e
    | .ok mapping =>
      set_joins_and_nested_selectable_fields_to_stmt root mapping
        (set_head_selectable_fields_to_stmt stmt root mapping)
        (get_prepared_join_fields (get_prepared_selectable_fields fields))

/-- `SqlAlchemyQueryBuilder._add_filters` (`if not filters: return stmt`). -/
def add_filters (stmt : Stmt α) (root : Entity) (filters : List (String × α)) :
    Except Err (Stmt α) :=
  if filters.isEmpty then .ok stmt
  else set_filters_to_stmt root stmt (get_prepared_filters filters)

/-- `SqlAlchemyQueryBuilder._add_order_by` (`if not order_by: return stmt`). -/
def add_order_by (stmt : Stmt α) (root : Entity) (order_by : List String) :
    Except Err (Stmt α) :=
  if order_by.isEmpty then .ok stmt
  else set_order_by_to_stmt root stmt (get_prepared_order_by_fields order_by)

/-- Python falsiness of an `int | None` parameter: `None` and `0` are falsy,
every other integer (negative ones included) is truthy. -/
def intFalsy : Option Int → Bool
  | none => true
  | some n => n == 0

/-- `SqlAlchemyQueryBuilder._add_limit_to_stmt` (`if not limit: return stmt`). -/
def add_limit_to_stmt (stmt : Stmt α) (limit : Option Int) : Stmt α :=
  if intFalsy limit then stmt else { stmt with limit := limit }

/-- `SqlAlchemyQueryBuilder._add_offset_to_stmt` (`if not offset: return stmt`). -/
def add_offset_to_stmt (stmt : Stmt α) (offset : Option Int) : Stmt α :=
  if intFalsy offset then stmt else { stmt with offset := offset }

/-- `SqlAlchemyQueryBuilder.build_query`: the full pipeline.  `None` and empty
iterables behave identically under `if not ...`, so optional iterable
arguments are modelled as plain lists (filters as an insertion-ordered list of
key/value pairs, as a Python dict iterates). -/
def build_query (root : Entity) (fields : List String)
    (filters : List (String × α)) (order_by : List String)
    (limit offset : Option Int) : Except Err (Stmt α) :=
  match add_joins_and_selectable_fields (generate_init_stmt root) root fields with
  | .error e => .error e
  | .ok s1 =>
    match add_filters s1 root filters with
    | .error e => .error e
    | .ok s2 =>
      match add_order_by s2 root order_by with
      | .error e => .error e
      | .ok s3 => .ok (add_offset_to_stmt (add_limit_to_stmt s3 limit) offset)

/-- A concrete filter-value type for instantiating the builder in concrete
runs; the builder never inspects values. -/
inductive Val : Type
  | vint (n : Int)
  | vstr (s : String)
  | vlist (ns : List Int)
deriving DecidableEq, Repr

/-! ### Frame lemmas: which statement components each stage leaves alone -/

/-- Attaching head selectable fields touches only the options list. -/
theorem set_head_frame (stmt : Stmt α) (root : Entity) (mp : CleanMapping) :
    (set_head_selectable_fields_to_stmt stmt root mp).base = stmt.base ∧
    (set_head_selectable_fields_to_stmt stmt root mp).joins = stmt.joins ∧
    (set_head_selectable_fields_to_stmt stmt root mp).wheres = stmt.wheres ∧
    (set_head_selectable_fields_to_stmt stmt root mp).orderBys = stmt.orderBys ∧
    (set_head_selectable_fields_to_stmt stmt root mp).limit = stmt.limit ∧
    (set_head_selectable_fields_to_stmt stmt root mp).offset = stmt.offset := by
  unfold set_head_selectable_fields_to_stmt
  cases assocLookup mp root with
  | none => exact ⟨rfl, rfl, rfl, rfl, rfl, rfl⟩
  | some v => cases v <;> exact ⟨rfl, rfl, rfl, rfl, rfl, rfl⟩

/-- The join-chain walk touches only the joins list of the statement. -/
theorem joinChainLoop_frame (parts : List String) :
    ∀ (m : Entity) (aj : List Entity) (chain : List Attr) (stmt : Stmt α)
      (m' : Entity) (aj' : List Entity) (chain' : List Attr) (stmt' : Stmt α),
      joinChainLoop parts m aj chain stmt = .ok (m', aj', chain', stmt') →
      stmt'.base = stmt.base ∧ stmt'.options = stmt.options ∧
      stmt'.wheres = stmt.wheres ∧ stmt'.orderBys = stmt.orderBys ∧
      stmt'.limit = stmt.limit ∧ stmt'.offset = stmt.offset := by
  induction parts with
  | nil =>
    intro m aj chain stmt m' aj' chain' stmt' h
    simp only [joinChainLoop, Except.ok.injEq, Prod.mk.injEq] at h
    obtain ⟨_, _, _, h4⟩ := h
    subst h4
    exact ⟨rfl, rfl, rfl, rfl, rfl, rfl⟩
  | cons p rest ih =>
    intro m aj chain stmt m' aj' chain' stmt' h
    simp only [joinChainLoop] at h
    split at h
    · exact absurd h (by simp)
    · split at h
      · exact ih _ _ _ _ _ _ _ _ h
      · have := ih _ _ _ _ _ _ _ _ h
        exact ⟨this.1, this.2.1, this.2.2.1, this.2.2.2.1, this.2.2.2.2.1,
          this.2.2.2.2.2⟩

/-- The join-planning loop touches only the joins and options lists. -/
theorem setJoinsLoop_frame (root : Entity) (mp : CleanMapping)
    (jfs : List PreparedJoinField) :
    ∀ (aj : List Entity) (stmt stmt' : Stmt α),
      setJoinsLoop root mp jfs aj stmt = .ok stmt' →
      stmt'.base = stmt.base ∧ stmt'.wheres = stmt.wheres ∧
      stmt'.orderBys = stmt.orderBys ∧ stmt'.limit = stmt.limit ∧
      stmt'.offset = stmt.offset := by
  induction jfs with
  | nil =>
    intro aj stmt stmt' h
    simp only [setJoinsLoop, Except.ok.injEq] at h
    subst h
    exact ⟨rfl, rfl, rfl, rfl, rfl⟩
  | cons jf rest ih =>
    intro aj stmt stmt' h
    simp only [setJoinsLoop] at h
    split at h
    · exact absurd h (by simp)
    · next m aj1 chain stmt1 heq =>
        have hframe := joinChainLoop_frame jf.name_parts root aj [] stmt m aj1 chain stmt1 heq
        split at h
        · exact absurd h (by simp)
        · have := ih aj1 _ _ h
          exact ⟨this.1.trans hframe.1, this.2.1.trans hframe.2.2.1,
            this.2.2.1.trans hframe.2.2.2.1, this.2.2.2.1.trans hframe.2.2.2.2.1,
            this.2.2.2.2.trans hframe.2.2.2.2.2⟩
        · have := ih aj1 _ _ h
          exact ⟨this.1.trans hframe.1, this.2.1.trans hframe.2.2.1,
            this.2.2.1.trans hframe.2.2.2.1, this.2.2.2.1.trans hframe.2.2.2.2.1,
            this.2.2.2.2.trans hframe.2.2.2.2.2⟩

/-- Filtering touches only the where-clause list. -/
theorem set_filters_frame (root : Entity) (fs : List (PreparedFilterField α)) :
    ∀ (stmt stmt' : Stmt α), set_filters_to_stmt root stmt fs = .ok stmt' →
      stmt'.base = stmt.base ∧ stmt'.joins = stmt.joins ∧
      stmt'.options = stmt.options ∧ stmt'.orderBys = stmt.orderBys ∧
      stmt'.limit = stmt.limit ∧ stmt'.offset = stmt.offset := by
  induction fs with
  | nil =>
    intro stmt stmt' h
    simp only [set_filters_to_stmt, Except.ok.injEq] at h
    subst h
    exact ⟨rfl, rfl, rfl, rfl, rfl, rfl⟩
  | cons pf rest ih =>
    intro stmt stmt' h
    simp only [set_filters_to_stmt] at h
    split at h
    · exact absurd h (by simp)
    · have := ih _ _ h
      exact ⟨this.1, this.2.1, this.2.2.1, this.2.2.2.1, this.2.2.2.2.1,
        this.2.2.2.2.2⟩

/-- Sorting touches only the order-by list. -/
theorem set_order_by_frame (root : Entity) (fs : List PreparedOrderByField) :
    ∀ (stmt stmt' : Stmt α), set_order_by_to_stmt root stmt fs = .ok stmt' →
      stmt'.base = stmt.base ∧ stmt'.joins = stmt.joins ∧
      stmt'.options = stmt.options ∧ stmt'.wheres = stmt.wheres ∧
      stmt'.limit = stmt.limit ∧ stmt'.offset = stmt.offset := by
  induction fs with
  | nil =>
    intro stmt stmt' h
    simp only [set_order_by_to_stmt, Except.ok.injEq] at h
    subst h
    exact ⟨rfl, rfl, rfl, rfl, rfl, rfl⟩
  | cons pf rest ih =>
    intro stmt stmt' h
    simp only [set_order_by_to_stmt] at h
    split at h
    · exact absurd h (by simp)
    · have := ih _ _ h
      exact ⟨this.1, this.2.1, this.2.2.1, this.2.2.2.1, this.2.2.2.2.1,
        this.2.2.2.2.2⟩

/-- `add_filters` preserves everything but the where-clauses. -/
theorem add_filters_frame (stmt : Stmt α) (root : Entity)
    (filters : List (String × α)) (stmt' : Stmt α)
    (h : add_filters stmt root filters = .ok stmt') :
    stmt'.base = stmt.base ∧ stmt'.joins = stmt.joins ∧
    stmt'.options = stmt.options ∧ stmt'.orderBys = stmt.orderBys ∧
    stmt'.limit = stmt.limit ∧ stmt'.offset = stmt.offset := by
  unfold add_filters at h
  by_cases he : filters.isEmpty
  · rw [if_pos he] at h
    simp only [Except.ok.injEq] at h
    subst h
    exact ⟨rfl, rfl, rfl, rfl, rfl, rfl⟩
  · rw [if_neg he] at h
    exact set_filters_frame root _ stmt stmt' h

/-- `add_order_by` preserves everything but the order-by keys. -/
theorem add_order_by_frame (stmt : Stmt α) (root : Entity)
    (order_by : List String) (stmt' : Stmt α)
    (h : add_order_by stmt root order_by = .ok stmt') :
    stmt'.base = stmt.base ∧ stmt'.joins = stmt.joins ∧
    stmt'.options = stmt.options ∧ stmt'.wheres = stmt.wheres ∧
    stmt'.limit = stmt.limit ∧ stmt'.offset = stmt.offset := by
  unfold add_order_by at h
  by_cases he : order_by.isEmpty
  · rw [if_pos he] at h
    simp only [Except.ok.injEq] at h
    subst h
    exact ⟨rfl, rfl, rfl, rfl, rfl, rfl⟩
  · rw [if_neg he] at h
    exact set_order_by_frame root _ stmt stmt' h

/-- The limit setter touches only the limit. -/
theorem add_limit_frame (stmt : Stmt α) (l : Option Int) :
    (add_limit_to_stmt stmt l).base = stmt.base ∧
    (add_limit_to_stmt stmt l).joins = stmt.joins ∧
    (add_limit_to_stmt stmt l).options = stmt.options ∧
    (add_limit_to_stmt stmt l).wheres = stmt.wheres ∧
    (add_limit_to_stmt stmt l).orderBys = stmt.orderBys ∧
    (add_limit_to_stmt stmt l).offset = stmt.offset := by
  unfold add_limit_to_stmt
  by_cases h : intFalsy l
  · rw [if_pos h]; exact ⟨rfl, rfl, rfl, rfl, rfl, rfl⟩
  · rw [if_neg h]; exact ⟨rfl, rfl, rfl, rfl, rfl, rfl⟩

/-- The offset setter touches only the offset. -/
theorem add_offset_frame (stmt : Stmt α) (o : Option Int) :
    (add_offset_to_stmt stmt o).base = stmt.base ∧
    (add_offset_to_stmt stmt o).joins = stmt.joins ∧
    (add_offset_to_stmt stmt o).options = stmt.options ∧
    (add_offset_to_stmt stmt o).wheres = stmt.wheres ∧
    (add_offset_to_stmt stmt o).orderBys = stmt.orderBys ∧
    (add_offset_to_stmt stmt o).limit = stmt.limit := by
  unfold add_offset_to_stmt
  by_cases h : intFalsy o
  · rw [if_pos h]; exact ⟨rfl, rfl, rfl, rfl, rfl, rfl⟩
  · rw [if_neg h]; exact ⟨rfl, rfl, rfl, rfl, rfl, rfl⟩

/-! ### Join-deduplication invariant -/

/-- Walking one relationship chain preserves the invariant that the targets of
the joins emitted so far are pairwise distinct, all recorded in
`already_joined_models`, and that list is itself duplicate-free. -/
theorem joinChainLoop_inv (parts : List String) :
    ∀ (m : Entity) (aj : List Entity) (chain : List Attr) (stmt : Stmt α)
      (m' : Entity) (aj' : List Entity) (chain' : List Attr) (stmt' : Stmt α),
      joinChainLoop parts m aj chain stmt = .ok (m', aj', chain', stmt') →
      (stmt.joins.map relTarget).Nodup →
      (∀ t ∈ stmt.joins.map relTarget, t ∈ aj) → aj.Nodup →
      (stmt'.joins.map relTarget).Nodup ∧
        (∀ t ∈ stmt'.joins.map relTarget, t ∈ aj') ∧ aj'.Nodup := by
  induction parts with
  | nil =>
    intro m aj chain stmt m' aj' chain' stmt' h h1 h2 h3
    simp only [joinChainLoop, Except.ok.injEq, Prod.mk.injEq] at h
    obtain ⟨_, haj, _, hstmt⟩ := h
    subst haj; subst hstmt
    exact ⟨h1, h2, h3⟩
  | cons p rest ih =>
    intro m aj chain stmt m' aj' chain' stmt' h h1 h2 h3
    simp only [joinChainLoop] at h
    split at h
    · exact absurd h (by simp)
    · next r heq =>
        split at h
        · exact ih _ _ _ _ _ _ _ _ h h1 h2 h3
        · next hmem =>
            refine ih _ _ _ _ _ _ _ _ h ?_ ?_ ?_
            · show ((stmt.joins ++ [r]).map relTarget).Nodup
              rw [List.map_append, List.map_cons, List.map_nil,
                ← List.concat_eq_append]
              exact List.Nodup.concat (fun hc => hmem (h2 _ hc)) h1
            · show ∀ t ∈ (stmt.joins ++ [r]).map relTarget, t ∈ aj ++ [relTarget r]
              intro t ht
              rw [List.map_append, List.mem_append] at ht
              rcases ht with ht | ht
              · exact List.mem_append.mpr (Or.inl (h2 _ ht))
              · simp only [List.map_cons, List.map_nil, List.mem_singleton] at ht
                subst ht
                exact List.mem_append.mpr (Or.inr (List.mem_singleton.mpr rfl))
            · rw [← List.concat_eq_append]
              exact List.Nodup.concat hmem h3

/-- The join-planning loop, started with invariant state, leaves the emitted
join targets duplicate-free. -/
theorem setJoinsLoop_inv (root : Entity) (mp : CleanMapping)
    (jfs : List PreparedJoinField) :
    ∀ (aj : List Entity) (stmt stmt' : Stmt α),
      setJoinsLoop root mp jfs aj stmt = .ok stmt' →
      (stmt.joins.map relTarget).Nodup →
      (∀ t ∈ stmt.joins.map relTarget, t ∈ aj) → aj.Nodup →
      (stmt'.joins.map relTarget).Nodup := by
  induction jfs with
  | nil =>
    intro aj stmt stmt' h h1 h2 h3
    simp only [setJoinsLoop, Except.ok.injEq] at h
    subst h
    exact h1
  | cons jf rest ih =>
    intro aj stmt stmt' h h1 h2 h3
    simp only [setJoinsLoop] at h
    split at h
    · exact absurd h (by simp)
    · next m aj1 chain stmt1 heq =>
        have hinv := joinChainLoop_inv jf.name_parts root aj [] stmt m aj1 chain stmt1 heq h1 h2 h3
        split at h
        · exact absurd h (by simp)
        · exact ih aj1 _ _ h hinv.1 hinv.2.1 hinv.2.2
        · exact ih aj1 _ _ h hinv.1 hinv.2.1 hinv.2.2

/-! ### Membership characterisation of the selectable-fields mapping -/

/-- Effect of one `mapping[model].append(field)` step on lookups. -/
theorem assocLookup_appendToKey (acc : SelMapping) (k : Entity) (f : SelEntry)
    (q : Entity) :
    assocLookup (appendToKey acc k f) q =
      if k = q then some ((assocLookup acc k).getD [] ++ [f])
      else assocLookup acc q := by
  induction acc with
  | nil =>
    by_cases hkq : k = q
    · simp [appendToKey, assocLookup, hkq]
    · simp [appendToKey, assocLookup, hkq]
  | cons hd rest ih =>
    obtain ⟨k', vs⟩ := hd
    by_cases hk : k' = k
    · subst hk
      by_cases hq : k' = q
      · simp [appendToKey, assocLookup, hq]
      · simp [appendToKey, assocLookup, hq]
    · by_cases hq : k' = q
      · subst hq
        have hkq : ¬ k = k' := fun hc => hk hc.symm
        simp [appendToKey, assocLookup, hk, hkq]
      · simp [appendToKey, assocLookup, hk, hq, ih]

/-- Membership view of one append step: the pair `(e, v)` occurs after the
step iff it occurred before or it is exactly the appended pair. -/
theorem appendToKey_mem (acc : SelMapping) (k : Entity) (f : SelEntry)
    (e : Entity) (v : SelEntry) :
    (∃ vs, assocLookup (appendToKey acc k f) e = some vs ∧ v ∈ vs) ↔
      ((∃ vs, assocLookup acc e = some vs ∧ v ∈ vs) ∨ (e = k ∧ v = f)) := by
  rw [assocLookup_appendToKey]
  by_cases hk : k = e
  · subst hk
    simp only [if_pos rfl]
    cases hl : assocLookup acc k with
    | none => simp
    | some vs => simp [List.mem_append, and_comm]
  · have hek : ¬ e = k := fun hc => hk hc.symm
    simp [hk, hek]

/-- Membership in the raw mapping built by the selectable-fields loop: a value
occurs at an entity iff it occurred in the accumulator or some input path
resolves to exactly that entity/value pair. -/
theorem buildSelMapping_mem (root : Entity) :
    ∀ (ps : List PreparedSelectableField) (acc m : SelMapping),
      buildSelMapping root ps acc = .ok m → ∀ (e : Entity) (v : SelEntry),
      (∃ vs, assocLookup m e = some vs ∧ v ∈ vs) ↔
        ((∃ vs, assocLookup acc e = some vs ∧ v ∈ vs) ∨
          ∃ p ∈ ps, resolveSel root p.name_parts = .ok (e, v)) := by
  intro ps
  induction ps with
  | nil =>
    intro acc m h e v
    simp only [buildSelMapping, Except.ok.injEq] at h
    subst h
    simp
  | cons p rest ih =>
    intro acc m h e v
    simp only [buildSelMapping] at h
    split at h
    · exact absurd h (by simp)
    · next me f heq =>
        rw [ih _ _ h e v, appendToKey_mem]
        constructor
        · rintro ((hacc | ⟨he, hv⟩) | ⟨q, hq, hr⟩)
          · exact Or.inl hacc
          · subst he; subst hv
            exact Or.inr ⟨p, List.mem_cons_self p rest, heq⟩
          · exact Or.inr ⟨q, List.mem_cons_of_mem p hq, hr⟩
        · rintro (hacc | ⟨q, hq, hr⟩)
          · exact Or.inl (Or.inl hacc)
          · rcases List.mem_cons.mp hq with hq | hq
            · subst hq
              rw [heq] at hr
              simp only [Except.ok.injEq, Prod.mk.injEq] at hr
              exact Or.inl (Or.inr ⟨hr.1.symm, hr.2.symm⟩)
            · exact Or.inr ⟨q, hq, hr⟩

/-- Lookup in the cleaned mapping is the pointwise cleaning of the raw
lookup. -/
theorem assocLookup_clean (m : SelMapping) (e : Entity) :
    assocLookup (clean_model_selectable_fields_mapping m) e =
      (assocLookup m e).map
        (fun vs => if SelEntry.all ∈ vs then SelVal.all else .fields vs) := by
  induction m with
  | nil => simp [clean_model_selectable_fields_mapping, assocLookup]
  | cons hd rest ih =>
    obtain ⟨k, vs⟩ := hd
    by_cases hk : k = e
    · simp [clean_model_selectable_fields_mapping, assocLookup, hk]
    · simpa [clean_model_selectable_fields_mapping, assocLookup, hk] using ih

/-! ### Join-prefix collection -/

/-- Membership in the collected unique join prefixes. -/
theorem uniqueJoinParts_mem :
    ∀ (ps : List PreparedSelectableField) (acc : List (List String))
      (lp : List String),
      lp ∈ uniqueJoinParts ps acc ↔
        lp ∈ acc ∨ ∃ p ∈ ps, p.name_parts.length > 1 ∧ lp = p.name_parts.dropLast := by
  intro ps
  induction ps with
  | nil => intro acc lp; simp [uniqueJoinParts]
  | cons p rest ih =>
    intro acc lp
    simp only [uniqueJoinParts]
    by_cases hlen : p.name_parts.length > 1
    · rw [if_pos hlen]
      by_cases hmem : p.name_parts.dropLast ∈ acc
      · rw [if_pos hmem, ih]
        constructor
        · rintro (h | h)
          · exact Or.inl h
          · obtain ⟨q, hq, hl, he⟩ := h
            exact Or.inr ⟨q, List.mem_cons_of_mem p hq, hl, he⟩
        · rintro (h | ⟨q, hq, hl, he⟩)
          · exact Or.inl h
          · rcases List.mem_cons.mp hq with hq | hq
            · subst hq; subst he; exact Or.inl hmem
            · exact Or.inr ⟨q, hq, hl, he⟩
      · rw [if_neg hmem, ih]
        simp only [List.mem_append, List.mem_singleton]
        constructor
        · rintro ((h | h) | h)
          · exact Or.inl h
          · exact Or.inr ⟨p, List.mem_cons_self p rest, hlen, h⟩
          · obtain ⟨q, hq, hl, he⟩ := h
            exact Or.inr ⟨q, List.mem_cons_of_mem p hq, hl, he⟩
        · rintro (h | ⟨q, hq, hl, he⟩)
          · exact Or.inl (Or.inl h)
          · rcases List.mem_cons.mp hq with hq | hq
            · subst hq; exact Or.inl (Or.inr he)
            · exact Or.inr ⟨q, hq, hl, he⟩
    · rw [if_neg hlen, ih]
      constructor
      · rintro (h | ⟨q, hq, hl, he⟩)
        · exact Or.inl h
        · exact Or.inr ⟨q, List.mem_cons_of_mem p hq, hl, he⟩
      · rintro (h | ⟨q, hq, hl, he⟩)
        · exact Or.inl h
        · rcases List.mem_cons.mp hq with hq | hq
          · subst hq; exact absurd hl hlen
          · exact Or.inr ⟨q, hq, hl, he⟩

/-- The collected join prefixes are duplicate-free. -/
theorem uniqueJoinParts_nodup :
    ∀ (ps : List PreparedSelectableField) (acc : List (List String)),
      acc.Nodup → (uniqueJoinParts ps acc).Nodup := by
  intro ps
  induction ps with
  | nil => intro acc h; simpa [uniqueJoinParts] using h
  | cons p rest ih =>
    intro acc h
    simp only [uniqueJoinParts]
    by_cases hlen : p.name_parts.length > 1
    · rw [if_pos hlen]
      by_cases hmem : p.name_parts.dropLast ∈ acc
      · rw [if_pos hmem]; exact ih acc h
      · rw [if_neg hmem]
        refine ih _ ?_
        rw [← List.concat_eq_append]
        exact List.Nodup.concat hmem h
    · rw [if_neg hlen]; exact ih acc h

/-- Inversion of `_get_model_selectable_fields_mapping`: a successful result is
the cleaning of a successfully built raw mapping. -/
theorem get_mapping_inv (root : Entity) (ps : List PreparedSelectableField)
    (m : CleanMapping) (h : get_model_selectable_fields_mapping root ps = .ok m) :
    ∃ raw, buildSelMapping root ps [] = .ok raw ∧
      m = clean_model_selectable_fields_mapping raw := by
  unfold get_model_selectable_fields_mapping at h
  split at h
  · exact absurd h (by simp)
  · next raw heq =>
      simp only [Except.ok.injEq] at h
      exact ⟨raw, heq, h.symm⟩

/-- Raw-mapping membership starting from the empty accumulator. -/
theorem buildSelMapping_mem_nil (root : Entity)
    (ps : List PreparedSelectableField) (m : SelMapping)
    (h : buildSelMapping root ps [] = .ok m) (e : Entity) (v : SelEntry) :
    (∃ vs, assocLookup m e = some vs ∧ v ∈ vs) ↔
      ∃ p ∈ ps, resolveSel root p.name_parts = .ok (e, v) := by
  rw [buildSelMapping_mem root ps [] m h e v]
  simp [assocLookup]

/-- Membership in the prepared selectable fields of a path list. -/
theorem mem_prep (l : List String) (p : PreparedSelectableField) :
    p ∈ get_prepared_selectable_fields l ↔ ∃ s ∈ l, p = ⟨splitOnDot s⟩ := by
  simp only [get_prepared_selectable_fields, List.mem_map]
  constructor
  · rintro ⟨s, hs, hp⟩; exact ⟨s, hs, hp.symm⟩
  · rintro ⟨s, hs, hp⟩; exact ⟨s, hs, hp.symm⟩

/-- A cleaned entry reads `"__all__"` exactly when the raw list contains the
wildcard marker. -/
theorem clean_lookup_all (raw : SelMapping) (e : Entity) :
    assocLookup (clean_model_selectable_fields_mapping raw) e = some SelVal.all ↔
      ∃ vs, assocLookup raw e = some vs ∧ SelEntry.all ∈ vs := by
  rw [assocLookup_clean]
  cases h : assocLookup raw e with
  | none => simp
  | some vs =>
    by_cases hall : SelEntry.all ∈ vs
    · simp [hall]
    · simp [hall]

/-- A cleaned entry keeps an explicit field exactly when the raw list holds it
and the raw list carries no wildcard marker. -/
theorem clean_lookup_fields (raw : SelMapping) (e : Entity) (v : SelEntry) :
    (∃ fs, assocLookup (clean_model_selectable_fields_mapping raw) e =
        some (SelVal.fields fs) ∧ v ∈ fs) ↔
      ((∃ vs, assocLookup raw e = some vs ∧ v ∈ vs) ∧
        ¬ ∃ vs, assocLookup raw e = some vs ∧ SelEntry.all ∈ vs) := by
  rw [assocLookup_clean]
  cases h : assocLookup raw e with
  | none => simp
  | some vs =>
    by_cases hall : SelEntry.all ∈ vs
    · simp [hall]
    · simp [hall]

/-- `_add_joins_and_selectable_fields` preserves everything but joins and
options. -/
theorem add_joins_frame (stmt : Stmt α) (root : Entity) (fields : List String)
    (s1 : Stmt α) (h : add_joins_and_selectable_fields stmt root fields = .ok s1) :
    s1.base = stmt.base ∧ s1.wheres = stmt.wheres ∧
    s1.orderBys = stmt.orderBys ∧ s1.limit = stmt.limit ∧
    s1.offset = stmt.offset := by
  unfold add_joins_and_selectable_fields at h
  by_cases he : fields.isEmpty
  · rw [if_pos he] at h
    simp only [Except.ok.injEq] at h
    subst h
    exact ⟨rfl, rfl, rfl, rfl, rfl⟩
  · rw [if_neg he] at h
    split at h
    · exact absurd h (by simp)
    · next mapping heq =>
        have hj := setJoinsLoop_frame root mapping _ []
          (set_head_selectable_fields_to_stmt stmt root mapping) s1 h
        have hh := set_head_frame stmt root mapping
        exact ⟨hj.1.trans hh.1, hj.2.1.trans hh.2.2.1, hj.2.2.1.trans hh.2.2.2.1,
          hj.2.2.2.1.trans hh.2.2.2.2.1, hj.2.2.2.2.trans hh.2.2.2.2.2⟩

/-- Starting from a statement with no joins, `_add_joins_and_selectable_fields`
leaves the join targets duplicate-free. -/
theorem add_joins_nodup (stmt : Stmt α) (root : Entity) (fields : List String)
    (s1 : Stmt α) (h : add_joins_and_selectable_fields stmt root fields = .ok s1)
    (h0 : stmt.joins = []) : (s1.joins.map relTarget).Nodup := by
  unfold add_joins_and_selectable_fields at h
  by_cases he : fields.isEmpty
  · rw [if_pos he] at h
    simp only [Except.ok.injEq] at h
    subst h
    simp [h0]
  · rw [if_neg he] at h
    split at h
    · exact absurd h (by simp)
    · next mapping heq =>
        have hhead : (set_head_selectable_fields_to_stmt stmt root mapping).joins = [] :=
          (set_head_frame stmt root mapping).2.1.trans h0
        refine setJoinsLoop_inv root mapping _ [] _ s1 h ?_ ?_ List.nodup_nil
        · rw [hhead]; exact List.nodup_nil
        · rw [hhead]; intro t ht; exact absurd ht (by simp)

/-! ### The claims -/

/-- C1: the spec requires the join planner to run over the union of selection,
filter and sort paths, so that every relationship chain traversed by a filter
key or sort path gets an outer join.  The code passes only the selection paths
to join planning: with no selection paths at all, a filter on `user.id` and a
sort on `comments.content` both traverse relationships, yet the built
statement contains no join at all — the where- and order-clauses reference
unjoined entities. -/
theorem c1_filter_and_sort_paths_get_no_joins :
    build_query (α := Val) .Post [] [("user.id", Val.vint 5)]
        ["comments.content"] none none =
      .ok ⟨.Post, [], [],
        [(.field .User "id", "__eq__", Val.vint 5)],
        [(.field .Comment "content", Dir.asc)], none, none⟩ := rfl

/-- C2: the spec requires `["user", "user.id"]` to fail with `AmbiguousPath`
(one segment being both a terminal selection and a traversal root).  The code
performs no such check: it resolves the bare `"user"` through `_get_field`
(plain `getattr`, which happily returns the relationship attribute), records
it as a selected "field" of the root, and returns a statement instead of any
error. -/
theorem c2_prefix_path_not_rejected :
    build_query (α := Val) .Post ["user", "user.id"] [] [] none none =
      .ok ⟨.Post, [.rel .Post "user" .User],
        [.loadOnly [.attr (.rel .Post "user" .User)],
         .containsEagerLoadOnly [.rel .Post "user" .User]
           [.attr (.field .User "id")]],
        [], [], none, none⟩ := rfl

/-- C3 counterexample: re-ordering the selection paths re-orders the emitted
joins, so the ordered join sequence of the built statement does depend on the
input order, contrary to the claim. -/
theorem c3_counterexample_join_order :
    build_query (α := Val) .Post ["user.username", "comments.content"] [] []
        none none =
      .ok ⟨.Post,
        [.rel .Post "user" .User, .rel .Post "comments" .Comment],
        [.containsEagerLoadOnly [.rel .Post "user" .User]
           [.attr (.field .User "username")],
         .containsEagerLoadOnly [.rel .Post "comments" .Comment]
           [.attr (.field .Comment "content")]],
        [], [], none, none⟩ ∧
    build_query (α := Val) .Post ["comments.content", "user.username"] [] []
        none none =
      .ok ⟨.Post,
        [.rel .Post "comments" .Comment, .rel .Post "user" .User],
        [.containsEagerLoadOnly [.rel .Post "comments" .Comment]
           [.attr (.field .Comment "content")],
         .containsEagerLoadOnly [.rel .Post "user" .User]
           [.attr (.field .User "username")]],
        [], [], none, none⟩ ∧
    ([.rel .Post "user" .User, .rel .Post "comments" .Comment] : List Attr) ≠
      [.rel .Post "comments" .Comment, .rel .Post "user" .User] :=
  ⟨rfl, rfl, by decide⟩

/-- C3 (amended): two selection-path lists with the same members (covering
re-ordering and duplication) plan the same set of join chains — the prepared
join-field lists are permutations of each other — and per entity the cleaned
projection mappings agree: the same entities collapse to all-fields, and the
same explicit entries occur; only the order of joins and of field entries
follows the first-occurrence order of the input. -/
theorem c3_reorder_same_join_set_and_projection (root : Entity)
    (l1 l2 : List String) (hmem : ∀ s, s ∈ l1 ↔ s ∈ l2) (m1 m2 : CleanMapping)
    (h1 : get_model_selectable_fields_mapping root
      (get_prepared_selectable_fields l1) = .ok m1)
    (h2 : get_model_selectable_fields_mapping root
      (get_prepared_selectable_fields l2) = .ok m2) :
    (get_prepared_join_fields (get_prepared_selectable_fields l1)).Perm
      (get_prepared_join_fields (get_prepared_selectable_fields l2)) ∧
    (∀ e : Entity, assocLookup m1 e = some SelVal.all ↔
      assocLookup m2 e = some SelVal.all) ∧
    (∀ (e : Entity) (v : SelEntry),
      (∃ fs, assocLookup m1 e = some (SelVal.fields fs) ∧ v ∈ fs) ↔
      (∃ fs, assocLookup m2 e = some (SelVal.fields fs) ∧ v ∈ fs)) := by
  obtain ⟨r1, hr1, hm1⟩ := get_mapping_inv root _ m1 h1
  obtain ⟨r2, hr2, hm2⟩ := get_mapping_inv root _ m2 h2
  subst hm1; subst hm2
  have hraw1 : ∀ (e : Entity) (v : SelEntry),
      (∃ vs, assocLookup r1 e = some vs ∧ v ∈ vs) ↔
        ∃ s ∈ l1, resolveSel root (splitOnDot s) = .ok (e, v) := by
    intro e v
    rw [buildSelMapping_mem_nil root _ r1 hr1 e v]
    constructor
    · rintro ⟨p, hp, hres⟩
      obtain ⟨s, hs, hps⟩ := (mem_prep l1 p).mp hp
      subst hps
      exact ⟨s, hs, hres⟩
    · rintro ⟨s, hs, hres⟩
      exact ⟨⟨splitOnDot s⟩, (mem_prep l1 _).mpr ⟨s, hs, rfl⟩, hres⟩
  have hraw2 : ∀ (e : Entity) (v : SelEntry),
      (∃ vs, assocLookup r2 e = some vs ∧ v ∈ vs) ↔
        ∃ s ∈ l2, resolveSel root (splitOnDot s) = .ok (e, v) := by
    intro e v
    rw [buildSelMapping_mem_nil root _ r2 hr2 e v]
    constructor
    · rintro ⟨p, hp, hres⟩
      obtain ⟨s, hs, hps⟩ := (mem_prep l2 p).mp hp
      subst hps
      exact ⟨s, hs, hres⟩
    · rintro ⟨s, hs, hres⟩
      exact ⟨⟨splitOnDot s⟩, (mem_prep l2 _).mpr ⟨s, hs, rfl⟩, hres⟩
  have htrans : ∀ (e : Entity) (v : SelEntry),
      (∃ vs, assocLookup r1 e = some vs ∧ v ∈ vs) ↔
        (∃ vs, assocLookup r2 e = some vs ∧ v ∈ vs) := by
    intro e v
    rw [hraw1, hraw2]
    constructor
    · rintro ⟨s, hs, h⟩; exact ⟨s, (hmem s).mp hs, h⟩
    · rintro ⟨s, hs, h⟩; exact ⟨s, (hmem s).mpr hs, h⟩
  refine ⟨?_, ?_, ?_⟩
  · simp only [get_prepared_join_fields]
    apply List.Perm.map
    rw [List.perm_ext_iff_of_nodup (uniqueJoinParts_nodup _ [] List.nodup_nil)
      (uniqueJoinParts_nodup _ [] List.nodup_nil)]
    intro lp
    rw [uniqueJoinParts_mem, uniqueJoinParts_mem]
    simp only [List.not_mem_nil, false_or]
    constructor
    · rintro ⟨p, hp, hlen, he⟩
      obtain ⟨s, hs, hps⟩ := (mem_prep l1 p).mp hp
      subst hps
      exact ⟨⟨splitOnDot s⟩, (mem_prep l2 _).mpr ⟨s, (hmem s).mp hs, rfl⟩, hlen, he⟩
    · rintro ⟨p, hp, hlen, he⟩
      obtain ⟨s, hs, hps⟩ := (mem_prep l2 p).mp hp
      subst hps
      exact ⟨⟨splitOnDot s⟩, (mem_prep l1 _).mpr ⟨s, (hmem s).mpr hs, rfl⟩, hlen, he⟩
  · intro e
    rw [clean_lookup_all, clean_lookup_all]
    exact htrans e SelEntry.all
  · intro e v
    rw [clean_lookup_fields, clean_lookup_fields]
    exact and_congr (htrans e v) (not_congr (htrans e SelEntry.all))

/-- Witness for the amended C3 at a concrete re-ordered and duplicated input. -/
theorem c3_witness :
    (∀ s : String, s ∈ ["user.username", "user.profile.age"] ↔
      s ∈ ["user.profile.age", "user.username", "user.username"]) ∧
    (get_prepared_join_fields
        (get_prepared_selectable_fields ["user.username", "user.profile.age"])).Perm
      (get_prepared_join_fields (get_prepared_selectable_fields
        ["user.profile.age", "user.username", "user.username"])) ∧
    (assocLookup [(Entity.User, SelVal.fields [.attr (.field .User "username")]),
        (Entity.Profile, SelVal.fields [.attr (.field .Profile "age")])] Entity.User =
          some SelVal.all ↔
      assocLookup [(Entity.Profile, SelVal.fields [.attr (.field .Profile "age")]),
        (Entity.User, SelVal.fields [.attr (.field .User "username"),
          .attr (.field .User "username")])] Entity.User = some SelVal.all) ∧
    ((∃ fs, assocLookup [(Entity.User, SelVal.fields [.attr (.field .User "username")]),
        (Entity.Profile, SelVal.fields [.attr (.field .Profile "age")])] Entity.User =
          some (SelVal.fields fs) ∧ SelEntry.attr (.field .User "username") ∈ fs) ↔
      (∃ fs, assocLookup [(Entity.Profile, SelVal.fields [.attr (.field .Profile "age")]),
        (Entity.User, SelVal.fields [.attr (.field .User "username"),
          .attr (.field .User "username")])] Entity.User =
          some (SelVal.fields fs) ∧ SelEntry.attr (.field .User "username") ∈ fs)) := by
  have hmem : ∀ s : String, s ∈ ["user.username", "user.profile.age"] ↔
      s ∈ ["user.profile.age", "user.username", "user.username"] := by
    intro s
    constructor <;> intro hs <;>
      simp only [List.mem_cons, List.not_mem_nil, or_false] at hs ⊢ <;> tauto
  have H := c3_reorder_same_join_set_and_projection .Post
    ["user.username", "user.profile.age"]
    ["user.profile.age", "user.username", "user.username"] hmem
    [(Entity.User, SelVal.fields [.attr (.field .User "username")]),
     (Entity.Profile, SelVal.fields [.attr (.field .Profile "age")])]
    [(Entity.Profile, SelVal.fields [.attr (.field .Profile "age")]),
     (Entity.User, SelVal.fields [.attr (.field .User "username"),
       .attr (.field .User "username")])] rfl rfl
  exact ⟨hmem, H.1, H.2.1 Entity.User,
    H.2.2 Entity.User (SelEntry.attr (.field .User "username"))⟩

/-- C4: within one `build_query` call an outer join to a given target entity is
emitted at most once — the targets of the emitted joins are pairwise distinct,
deduplication being tracked by the `already_joined_models` list of target
entities. -/
theorem c4_joins_unique_target {α : Type} (root : Entity) (fields : List String)
    (filters : List (String × α)) (ob : List String) (l o : Option Int)
    (s' : Stmt α) (h : build_query root fields filters ob l o = .ok s') :
    (s'.joins.map relTarget).Nodup := by
  unfold build_query at h
  split at h
  · exact absurd h (by simp)
  · next s1 heq1 =>
      split at h
      · exact absurd h (by simp)
      · next s2 heq2 =>
          split at h
          · exact absurd h (by simp)
          · next s3 heq3 =>
              simp only [Except.ok.injEq] at h
              subst h
              have hnodup1 : (s1.joins.map relTarget).Nodup :=
                add_joins_nodup _ root fields s1 heq1 rfl
              have h2 := (add_filters_frame s1 root filters s2 heq2).2.1
              have h3 := (add_order_by_frame s2 root ob s3 heq3).2.1
              have hl := (add_limit_frame s3 l).2.1
              have ho := (add_offset_frame (add_limit_to_stmt s3 l) o).2.1
              rw [ho, hl, h3, h2]
              exact hnodup1

/-- Witness for C4 at a concrete build whose three joins reach three distinct
targets. -/
theorem c4_witness :
    build_query (α := Val) .Post
        ["user.username", "user.profile.age", "comments.content"] [] []
        none none =
      .ok ⟨.Post,
        [.rel .Post "user" .User, .rel .User "profile" .Profile,
         .rel .Post "comments" .Comment],
        [.containsEagerLoadOnly [.rel .Post "user" .User]
           [.attr (.field .User "username")],
         .containsEagerLoadOnly [.rel .Post "user" .User, .rel .User "profile" .Profile]
           [.attr (.field .Profile "age")],
         .containsEagerLoadOnly [.rel .Post "comments" .Comment]
           [.attr (.field .Comment "content")]],
        [], [], none, none⟩ ∧
    ((⟨.Post,
        [.rel .Post "user" .User, .rel .User "profile" .Profile,
         .rel .Post "comments" .Comment],
        [.containsEagerLoadOnly [.rel .Post "user" .User]
           [.attr (.field .User "username")],
         .containsEagerLoadOnly [.rel .Post "user" .User, .rel .User "profile" .Profile]
           [.attr (.field .Profile "age")],
         .containsEagerLoadOnly [.rel .Post "comments" .Comment]
           [.attr (.field .Comment "content")]],
        [], [], none, none⟩ : Stmt Val).joins.map relTarget).Nodup :=
  ⟨rfl, c4_joins_unique_target .Post
    ["user.username", "user.profile.age", "comments.content"] [] [] none none
    _ rfl⟩

/-- C5: wildcard dominance — whenever some selection path resolves to the
wildcard marker for an entity, that entity's computed projection collapses to
all-fields in the cleaned mapping, for every input list (hence irrespective of
input order). -/
theorem c5_wildcard_dominates (root : Entity)
    (ps : List PreparedSelectableField) (m : CleanMapping)
    (h : get_model_selectable_fields_mapping root ps = .ok m)
    (p : PreparedSelectableField) (hp : p ∈ ps) (e : Entity)
    (hres : resolveSel root p.name_parts = .ok (e, SelEntry.all)) :
    assocLookup m e = some SelVal.all := by
  obtain ⟨raw, hraw, hm⟩ := get_mapping_inv root ps m h
  subst hm
  rw [clean_lookup_all]
  exact (buildSelMapping_mem_nil root ps raw hraw e SelEntry.all).mpr
    ⟨p, hp, hres⟩

/-- Witness for C5: `["profile.age", "profile.*"]` on root `User` collapses the
`Profile` projection to all-fields even though the explicit field came
first. -/
theorem c5_witness :
    get_model_selectable_fields_mapping .User
        (get_prepared_selectable_fields ["profile.age", "profile.*"]) =
      .ok [(Entity.Profile, SelVal.all)] ∧
    (⟨["profile", "*"]⟩ : PreparedSelectableField) ∈
      get_prepared_selectable_fields ["profile.age", "profile.*"] ∧
    resolveSel .User ["profile", "*"] = .ok (.Profile, SelEntry.all) ∧
    assocLookup [(Entity.Profile, SelVal.all)] Entity.Profile =
      some SelVal.all :=
  ⟨rfl, by decide, rfl,
    c5_wildcard_dominates .User
      (get_prepared_selectable_fields ["profile.age", "profile.*"])
      [(Entity.Profile, SelVal.all)] rfl ⟨["profile", "*"]⟩ (by decide)
      .Profile rfl⟩

/-- C6: filter-key parsing extracts a trailing operator-table token as the
operator and drops it from the path, and otherwise defaults to `"eq"`; and the
two round trips of the claim hold: `"user.profile.age.between"` with
`[20, 40]` compiles to a where-clause on `Profile.age` with the `between`
operator and that bound, while `"title"` with `"x"` compiles to equality on
the root field `Post.title`. -/
theorem c6_filter_parsing_and_round_trip :
    (∀ (key : String) (v : Val),
      get_prepared_filters [(key, v)] =
        [if ((splitOnDot key).getLast?.getD "") ∈ operatorKeys then
           ⟨(splitOnDot key).dropLast, (splitOnDot key).getLast?.getD "", v⟩
         else ⟨splitOnDot key, "eq", v⟩]) ∧
    get_prepared_filters [("user.profile.age.between", Val.vlist [20, 40])] =
      [⟨["user", "profile", "age"], "between", Val.vlist [20, 40]⟩] ∧
    add_filters (generate_init_stmt .Post) .Post
        [("user.profile.age.between", Val.vlist [20, 40])] =
      .ok ⟨.Post, [], [],
        [(.field .Profile "age", "between", Val.vlist [20, 40])],
        [], none, none⟩ ∧
    get_prepared_filters [("title", Val.vstr "x")] =
      [⟨["title"], "eq", Val.vstr "x"⟩] ∧
    add_filters (generate_init_stmt .Post) .Post [("title", Val.vstr "x")] =
      .ok ⟨.Post, [], [],
        [(.field .Post "title", "__eq__", Val.vstr "x")], [], none, none⟩ := by
  refine ⟨?_, rfl, rfl, rfl, rfl⟩
  intro key v
  simp only [get_prepared_filters, List.map_cons, List.map_nil]
  cases h : (splitOnDot key).getLast? with
  | none =>
    simp only [h, Option.getD]
    rw [if_neg (by decide)]
  | some last =>
    simp only [h, Option.getD]

/-- C7 counterexample: the filter key `"title.foo"`, whose suffix `"foo"` is
not in the operator table, does not fail with any unknown-operator error — the
whole key is treated as a field path and the build fails while resolving
`"title"` as a relationship, with the not-a-relationship error. -/
theorem c7_counterexample_error_kind :
    build_query (α := Val) .Post [] [("title.foo", Val.vint 1)] [] none none =
      .error (.notARelationship "title" "Post") := rfl

/-- C7 (amended): a filter key whose trailing segment is not in the operator
table is not rejected; it is parsed as a whole field path with the default
operator `"eq"`, and any failure comes later from path resolution. -/
theorem c7_unknown_suffix_defaults_to_eq (key : String) (v : Val)
    (h : ((splitOnDot key).getLast?.getD "") ∉ operatorKeys) :
    get_prepared_filters [(key, v)] = [⟨splitOnDot key, "eq", v⟩] := by
  simp only [get_prepared_filters, List.map_cons, List.map_nil]
  cases hl : (splitOnDot key).getLast? with
  | none => rfl
  | some last =>
    rw [hl] at h
    simp only [Option.getD] at h
    simp only [if_neg h]

/-- Witness for the amended C7 at the key `"title.foo"`. -/
theorem c7_witness :
    ((splitOnDot "title.foo").getLast?.getD "") ∉ operatorKeys ∧
    get_prepared_filters [("title.foo", Val.vint 1)] =
      [⟨["title", "foo"], "eq", Val.vint 1⟩] :=
  ⟨by decide, c7_unknown_suffix_defaults_to_eq "title.foo" (Val.vint 1)
    (by decide)⟩

/-- C8 counterexample: resolving the name `"user"` — a relationship — as a
field of `Post` does not fail with any unknown-field error; `_get_field` is a
plain `getattr` and returns the relationship attribute. -/
theorem c8_counterexample_field_accepts_relationship :
    get_field .Post "user" = .ok (.rel .Post "user" .User) := rfl

/-- C8 (amended): `_get_field` fails (with the unknown-field error) only when
the name is entirely absent — a relationship name resolves successfully, with
no kind check; `_get_relationship_field` fails with the not-a-relationship
error when the name is a mapped column, and with the unknown-relationship
error when the name is absent. -/
theorem c8_resolution_error_kinds :
    (∀ (e : Entity) (n : String), getattrOpt e n = none →
      get_field e n = .error (.unknownField (entityName e) n)) ∧
    (∀ (e : Entity) (n : String) (t : Entity),
      getattrOpt e n = some (.rel e n t) → get_field e n = .ok (.rel e n t)) ∧
    (∀ (e : Entity) (n : String), n ∈ entityFields e →
      get_relationship_field e n = .error (.notARelationship n (entityName e))) ∧
    (∀ (e : Entity) (n : String), getattrOpt e n = none →
      get_relationship_field e n = .error (.unknownRelationship (entityName e) n)) := by
  refine ⟨?_, ?_, ?_, ?_⟩
  · intro e n h
    simp only [get_field, h]
  · intro e n t h
    simp only [get_field, h]
  · intro e n h
    simp only [get_relationship_field, getattrOpt, if_pos h]
  · intro e n h
    simp only [get_relationship_field, h]

/-- Witness for the amended C8 on concrete names of `Post`. -/
theorem c8_witness :
    getattrOpt .Post "missing" = none ∧
    get_field .Post "missing" = .error (.unknownField "Post" "missing") ∧
    getattrOpt .Post "user" = some (.rel .Post "user" .User) ∧
    get_field .Post "user" = .ok (.rel .Post "user" .User) ∧
    "title" ∈ entityFields Entity.Post ∧
    get_relationship_field .Post "title" =
      .error (.notARelationship "title" "Post") ∧
    get_relationship_field .Post "missing" =
      .error (.unknownRelationship "Post" "missing") :=
  ⟨by decide, c8_resolution_error_kinds.1 .Post "missing" (by decide),
   by decide, c8_resolution_error_kinds.2.1 .Post "user" .User (by decide),
   by decide, c8_resolution_error_kinds.2.2.1 .Post "title" (by decide),
   c8_resolution_error_kinds.2.2.2 .Post "missing" (by decide)⟩

/-- C9 counterexample: the claim says non-positive limit and offset values are
no-ops, but the code's `if not limit` guard only filters `None` and `0`:
negative values are truthy and attached verbatim. -/
theorem c9_counterexample_negatives_attached :
    build_query (α := Val) .Post [] [] [] (some (-1)) (some (-2)) =
      .ok ⟨.Post, [], [], [], [], some (-1), some (-2)⟩ := rfl

/-- C9 (amended): limit and offset are attached verbatim iff present and
nonzero: absent (`None`) and `0` are no-ops, while every other integer —
negative ones included — is attached; the stage itself never fails. -/
theorem c9_limit_offset_semantics {α : Type} (root : Entity)
    (fields : List String) (filters : List (String × α)) (ob : List String)
    (l o : Option Int) (s' : Stmt α)
    (h : build_query root fields filters ob l o = .ok s') :
    s'.limit = (if intFalsy l then none else l) ∧
    s'.offset = (if intFalsy o then none else o) := by
  unfold build_query at h
  split at h
  · exact absurd h (by simp)
  · next s1 heq1 =>
      split at h
      · exact absurd h (by simp)
      · next s2 heq2 =>
          split at h
          · exact absurd h (by simp)
          · next s3 heq3 =>
              simp only [Except.ok.injEq] at h
              subst h
              have hl3 : s3.limit = none :=
                ((add_order_by_frame s2 root ob s3 heq3).2.2.2.2.1).trans
                  (((add_filters_frame s1 root filters s2 heq2).2.2.2.2.1).trans
                    ((add_joins_frame _ root fields s1 heq1).2.2.2.1))
              have ho3 : s3.offset = none :=
                ((add_order_by_frame s2 root ob s3 heq3).2.2.2.2.2).trans
                  (((add_filters_frame s1 root filters s2 heq2).2.2.2.2.2).trans
                    ((add_joins_frame _ root fields s1 heq1).2.2.2.2))
              constructor
              · rw [(add_offset_frame (add_limit_to_stmt s3 l) o).2.2.2.2.2]
                unfold add_limit_to_stmt
                by_cases hf : intFalsy l
                · rw [if_pos hf, if_pos hf]; exact hl3
                · rw [if_neg hf, if_neg hf]
              · unfold add_offset_to_stmt
                by_cases hf : intFalsy o
                · rw [if_pos hf, if_pos hf]
                  exact ((add_limit_frame s3 l).2.2.2.2.2).trans ho3
                · rw [if_neg hf, if_neg hf]

/-- Witness for the amended C9 at a concrete positive limit and offset. -/
theorem c9_witness :
    build_query (α := Val) .Post [] [] [] (some 5) (some 7) =
      .ok ⟨.Post, [], [], [], [], some 5, some 7⟩ ∧
    (⟨.Post, [], [], [], [], some 5, some 7⟩ : Stmt Val).limit =
      (if intFalsy (some 5) then none else some 5) ∧
    (⟨.Post, [], [], [], [], some 5, some 7⟩ : Stmt Val).offset =
      (if intFalsy (some 7) then none else some 7) := by
  refine ⟨rfl, ?_⟩
  exact c9_limit_offset_semantics .Post [] [] [] (some 5) (some 7)
    ⟨.Post, [], [], [], [], some 5, some 7⟩ rfl

/-- C10: with every optional argument absent or empty (`None`/empty iterables
behave identically under `if not ...`, and zero limit/offset are no-ops), the
built statement is exactly the bare select over the root entity — no join,
loader option, where-clause, ordering, limit or offset. -/
theorem c10_empty_arguments_bare_select (α : Type) (root : Entity) :
    build_query (α := α) root [] [] [] none none =
      .ok ⟨root, [], [], [], [], none, none⟩ ∧
    build_query (α := α) root [] [] [] (some 0) (some 0) =
      .ok ⟨root, [], [], [], [], none, none⟩ :=
  ⟨rfl, rfl⟩

end QB
